import Mathlib

/-!
Verification development for the af3ro repository: an afero-compatible,
S3-backed in-memory filesystem (files `fs.go`, `file.go`, `s3.go`).

The Go code is shallowly embedded below.  Bytes are modelled as natural
numbers, Go `int64` values as `Int`, byte slices as `List Nat`, and Go
strings (ASCII throughout this code base) as Lean `String`.  The remote
object store (the S3 bucket) is an external collaborator: every remote
round trip is modelled by an explicit oracle argument carrying the remote
response, and remote writes appear as explicit output values.  A Go
runtime panic (out-of-range slice index) is modelled by `Option.none`.
-/

/-- Error values used by the embedded code (afero sentinel errors, `io.EOF`,
and opaque remote errors carried as strings). -/
inductive GErr where
  | eof
  | fileClosed
  | fileNotFound
  | fileExists
  | destinationExists
  | outOfRange
  | remote (msg : String)
deriving DecidableEq, Repr

/-- The S3 access-control levels used by `getACL` (goamz `s3.ACL`). -/
inductive ACL where
  | Private
  | PublicRead
  | PublicReadWrite
  | BucketOwnerRead
  | BucketOwnerFull
deriving DecidableEq, Repr

/-! ## MD5 (crypto/md5), used by `InMemoryFile.Close`

The digest of the local buffer is compared against the remote ETag.
Words are 32-bit values represented as naturals reduced mod 2^32. -/

/-- The 64 MD5 round constants `K[i] = floor(2^32 * |sin(i+1)|)`. -/
def md5K : List Nat :=
  [3614090360, 3905402710, 606105819, 3250441966, 4118548399, 1200080426,
   2821735955, 4249261313, 1770035416, 2336552879, 4294925233, 2304563134,
   1804603682, 4254626195, 2792965006, 1236535329, 4129170786, 3225465664,
   643717713, 3921069994, 3593408605, 38016083, 3634488961, 3889429448,
   568446438, 3275163606, 4107603335, 1163531501, 2850285829, 4243563512,
   1735328473, 2368359562, 4294588738, 2272392833, 1839030562, 4259657740,
   2763975236, 1272893353, 4139469664, 3200236656, 681279174, 3936430074,
   3572445317, 76029189, 3654602809, 3873151461, 530742520, 3299628645,
   4096336452, 1126891415, 2878612391, 4237533241, 1700485571, 2399980690,
   4293915773, 2240044497, 1873313359, 4264355552, 2734768916, 1309151649,
   4149444226, 3174756917, 718787259, 3951481745]

/-- The 64 MD5 per-round left-rotation amounts. -/
def md5S : List Nat :=
  [7, 12, 17, 22, 7, 12, 17, 22, 7, 12, 17, 22, 7, 12, 17, 22,
   5, 9, 14, 20, 5, 9, 14, 20, 5, 9, 14, 20, 5, 9, 14, 20,
   4, 11, 16, 23, 4, 11, 16, 23, 4, 11, 16, 23, 4, 11, 16, 23,
   6, 10, 15, 21, 6, 10, 15, 21, 6, 10, 15, 21, 6, 10, 15, 21]

/-- 32-bit left rotation. -/
def rotl32 (x c : Nat) : Nat :=
  ((x <<< c) % 4294967296) ||| (x >>> (32 - c))

/-- Assemble a little-endian 32-bit word from four bytes. -/
def leWord (bs : List Nat) : Nat :=
  bs.getD 0 0 + (bs.getD 1 0) <<< 8 + (bs.getD 2 0) <<< 16 + (bs.getD 3 0) <<< 24

/-- The sixteen message words of one 64-byte block, little endian. -/
def md5Words (block : List Nat) : List Nat :=
  (List.range 16).map (fun i => leWord ((block.drop (4 * i)).take 4))

/-- One of the 64 MD5 mixing steps on the running state `(a, b, c, d)`. -/
def md5Step (M : List Nat) (st : Nat × Nat × Nat × Nat) (i : Nat) :
    Nat × Nat × Nat × Nat :=
  let (a, b, c, d) := st
  let mask := 4294967295
  let fg : Nat × Nat :=
    if i < 16 then ((b &&& c) ||| ((b ^^^ mask) &&& d), i)
    else if i < 32 then ((d &&& b) ||| ((d ^^^ mask) &&& c), (5 * i + 1) % 16)
    else if i < 48 then (b ^^^ c ^^^ d, (3 * i + 5) % 16)
    else (c ^^^ (b ||| (d ^^^ mask)), (7 * i) % 16)
  let t := (a + fg.1 + md5K.getD i 0 + M.getD fg.2 0) % 4294967296
  (d, (b + rotl32 t (md5S.getD i 0)) % 4294967296, b, c)

/-- MD5 compression of one 64-byte block into the chaining state. -/
def md5Block (h : Nat × Nat × Nat × Nat) (block : List Nat) :
    Nat × Nat × Nat × Nat :=
  let M := md5Words block
  let (a, b, c, d) := (List.range 64).foldl (md5Step M) h
  ((h.1 + a) % 4294967296, (h.2.1 + b) % 4294967296,
   (h.2.2.1 + c) % 4294967296, (h.2.2.2 + d) % 4294967296)

/-- MD5 padding: a 0x80 byte, zeros to 56 mod 64, then the bit length as a
little-endian 64-bit integer. -/
def md5Pad (msg : List Nat) : List Nat :=
  let len := msg.length
  let zc := (56 + 64 - ((len + 1) % 64)) % 64
  let bitLen := (8 * len) % 18446744073709551616
  msg ++ [128] ++ List.replicate zc 0 ++
    (List.range 8).map (fun i => (bitLen >>> (8 * i)) % 256)

/-- Split a byte list into successive 64-byte blocks (fuel-driven; the fuel
is always sufficient at the call site since each step consumes 64 bytes). -/
def chunks64 : Nat → List Nat → List (List Nat)
  | 0, _ => []
  | _, [] => []
  | fuel + 1, xs => xs.take 64 :: chunks64 fuel (xs.drop 64)

/-- A 32-bit word as four little-endian bytes. -/
def leBytes (w : Nat) : List Nat :=
  [w % 256, (w >>> 8) % 256, (w >>> 16) % 256, (w >>> 24) % 256]

/-- The 16-byte MD5 digest of a byte sequence. -/
def md5 (msg : List Nat) : List Nat :=
  let padded := md5Pad msg
  let blocks := chunks64 (padded.length) padded
  let h := blocks.foldl md5Block (1732584193, 4023233417, 2562383102, 271733878)
  leBytes h.1 ++ leBytes h.2.1 ++ leBytes h.2.2.1 ++ leBytes h.2.2.2

/-- A hexadecimal digit character, lower case (as produced by Go `%x`). -/
def hexChar (n : Nat) : Char :=
  Char.ofNat (if n < 10 then 48 + n else 87 + n)

/-- Lowercase hexadecimal rendering of a byte list (Go `fmt.Sprintf("%x", b)`). -/
def hexOfBytes (bs : List Nat) : String :=
  String.mk (bs.foldr (fun b acc => hexChar (b / 16) :: hexChar (b % 16) :: acc) [])

/-- The hex MD5 fingerprint of a buffer, as `Close` formats it before adding
the surrounding quotes. -/
def md5hex (msg : List Nat) : String :=
  hexOfBytes (md5 msg)

/-! ## Go string helpers used by the embedded code -/

/-- `listStarts pat s` is true when `pat` is an initial run of `s`. -/
def listStarts : List Char → List Char → Bool
  | [], _ => true
  | _ :: _, [] => false
  | a :: as, b :: bs => a = b && listStarts as bs

/-- Go `strings.HasPrefix(s, pre)`: `s` begins with `pre`. -/
def strHasPre (s pre : String) : Bool :=
  listStarts pre.data s.data

/-- Core of Go `strings.Replace` on character lists: replace the first `cnt`
non-overlapping occurrences of `old` (`cnt = 0` replaces none; the embedded
code only ever calls it with a non-empty `old`). -/
def replaceL (old new : List Char) : Nat → List Char → Int → List Char
  | 0, s, _ => s
  | fuel + 1, s, cnt =>
    if cnt = 0 then s
    else
      match s, old with
      | s, [] => s
      | [], _ => []
      | c :: rest, o :: os =>
        if listStarts (o :: os) (c :: rest) then
          new ++ replaceL old new fuel ((c :: rest).drop (o :: os).length) (cnt - 1)
        else
          c :: replaceL old new fuel rest cnt

/-- Go `strings.Replace(s, old, new, cnt)`.  The fuel bounds the recursion
depth; each step consumes at least one character, so it never runs out. -/
def goReplace (s old new : String) (cnt : Int) : String :=
  String.mk (replaceL old.data new.data (s.data.length + 1) s.data cnt)

/-- Go `path.Split`: split around the final slash; the first component keeps
the trailing slash. -/
def goSplit (p : String) : String × String :=
  let cs := p.data
  let fileR := cs.reverse.takeWhile (fun c => ¬ c = '/')
  (String.mk (cs.take (cs.length - fileR.length)), String.mk fileR.reverse)

/-- Remove one trailing path element from the (reversed) output buffer of
`Clean`, as the rooted `..` case of Go `path.Clean` does. -/
def popSegment : List Char → Nat → List Char
  | [], _ => []
  | c :: rest, dd => if rest.length > dd ∧ ¬ c = '/' then popSegment rest dd else rest

/-- The scanning loop of Go `path.Clean` (the Plan 9 cleaning algorithm).
`rest` is the unscanned input, `outRev` the output buffer reversed, `dd` the
index up to which `..` may not backtrack.  The fuel is at least the input
length plus one at every call site, which each step consumes at least one
character of, so it never runs out. -/
def cleanCore (rooted : Bool) : Nat → List Char → List Char → Nat → List Char
  | 0, _, outRev, _ => outRev
  | _ + 1, [], outRev, _ => outRev
  | fuel + 1, c :: r, outRev, dd =>
    match c :: r with
    | '/' :: r1 => cleanCore rooted fuel r1 outRev dd
    | ['.'] => cleanCore rooted fuel [] outRev dd
    | '.' :: '/' :: r1 => cleanCore rooted fuel ('/' :: r1) outRev dd
    | ['.', '.'] =>
      if outRev.length > dd then cleanCore rooted fuel [] (popSegment outRev dd) dd
      else if rooted then cleanCore rooted fuel [] outRev dd
      else
        let out2 := '.' :: '.' :: (if outRev.length > 0 then '/' :: outRev else outRev)
        cleanCore rooted fuel [] out2 out2.length
    | '.' :: '.' :: '/' :: r1 =>
      if outRev.length > dd then cleanCore rooted fuel ('/' :: r1) (popSegment outRev dd) dd
      else if rooted then cleanCore rooted fuel ('/' :: r1) outRev dd
      else
        let out2 := '.' :: '.' :: (if outRev.length > 0 then '/' :: outRev else outRev)
        cleanCore rooted fuel ('/' :: r1) out2 out2.length
    | _ =>
      let out1 := if (rooted ∧ outRev.length ≠ 1) ∨ (¬ rooted ∧ outRev.length ≠ 0)
        then '/' :: outRev else outRev
      let seg := (c :: r).takeWhile (fun ch => ¬ ch = '/')
      cleanCore rooted fuel ((c :: r).drop seg.length) (seg.reverse ++ out1) dd

/-- Go `path.Clean` (equal to `filepath.Clean` on slash-separated systems). -/
def goClean (p : String) : String :=
  if p = "" then "."
  else
    let cs := p.data
    let rooted := cs.head? = some '/'
    let outRev := cleanCore rooted (cs.length + 1)
      (if rooted then cs.drop 1 else cs)
      (if rooted then ['/'] else [])
      (if rooted then 1 else 0)
    if outRev.length = 0 then "." else String.mk outRev.reverse

/-- Go `filepath.Dir`: everything up to the final separator, cleaned. -/
def goDir (p : String) : String :=
  goClean (goSplit p).1

/-! ## s3.go: ACL translation and the ETag metadata probe -/

/-- Bit positions from the `PermU` iota block in s3.go (`uRead = 9-1-iota`). -/
def uRead : Nat := 9 - 1 - 0
def uWrite : Nat := 9 - 1 - 1
def uExec : Nat := 9 - 1 - 2
def gRead : Nat := 9 - 1 - 3
def gWrite : Nat := 9 - 1 - 4
def gExec : Nat := 9 - 1 - 5
def oRead : Nat := 9 - 1 - 6
def oWrite : Nat := 9 - 1 - 7
def oExec : Nat := 9 - 1 - 8

/-- `getACL` from s3.go: translate permission bits to an S3 ACL; first match
wins, and nothing is done for exec permissions. -/
def getACL (m : Nat) : ACL :=
  if m &&& (1 <<< oWrite) ≠ 0 then .PublicReadWrite
  else if m &&& (1 <<< oRead) ≠ 0 then .PublicRead
  else if m &&& (1 <<< gWrite) ≠ 0 then .BucketOwnerFull
  else if m &&& (1 <<< gRead) ≠ 0 then .BucketOwnerRead
  else .Private

/-- The remote store's possible answers to a metadata-only HEAD request:
found (carrying the raw `ETag` response header), a `404 Not Found` error, or
some other error (opaque message). -/
inductive HeadResult where
  | found (etag : String)
  | notFound
  | err (msg : String)
deriving DecidableEq, Repr

/-- `headName` from s3.go: a HEAD whose error text is `404 Not Found` is
turned into `afero.ErrFileNotFound`; other errors pass through; a response
is modelled by its `ETag` header value. -/
def headName (h : HeadResult) : Except GErr String :=
  match h with
  | .found etag => .ok etag
  | .notFound => .error .fileNotFound
  | .err m => .error (.remote m)

/-- `getEtag` from s3.go: HEAD the object and return
`strings.Replace(etag, "\"", "", 0)` — a replacement count of zero, so the
header value is returned unchanged. -/
def getEtag (_name : String) (h : HeadResult) : Except GErr String :=
  match headName h with
  | .error e => .error e
  | .ok etag => .ok (goReplace etag "\"" "" 0)

/-! ## file.go: the buffered in-memory file -/

/-- `InMemoryFile` from file.go.  `atP` embeds the Go field `at` (an `at`
field name is reserved in Lean); `memDir` holds the sorted key list of the
directory's child map (`MemDirMap` keys are the children's full `Name()`
values) and is `none` for regular files; the `bucket` pointer is the
external collaborator and is kept out of the state. -/
structure InMemoryFile where
  atP : Int
  name : String
  data : List Nat
  memDir : Option (List String)
  dir : Bool
  closed : Bool
  mode : Nat
deriving DecidableEq, Repr

/-- `MemFileCreate` from file.go: a fresh regular file with mode `0640`. -/
def MemFileCreate (name : String) : InMemoryFile :=
  { atP := 0, name := name, data := [], memDir := none, dir := false,
    closed := false, mode := 0o640 }

/-- `InMemoryFile.Open` from file.go: reset the cursor, clear the closed flag. -/
def InMemoryFile.open (f : InMemoryFile) : InMemoryFile :=
  { f with atP := 0, closed := false }

/-- A remote `bucket.Put` call as issued by `Close` (content type is the
empty string, options are empty). -/
structure PutCall where
  key : String
  body : List Nat
  contentType : String
  acl : ACL
deriving DecidableEq, Repr

/-- `InMemoryFile.Close` from file.go.  `head` is the remote answer to the
metadata-only ETag probe; `putRes` the remote outcome of a `bucket.Put`
(`none` = success), consulted only if a put is issued.  The result carries
the updated file, the put issued (if any), and the returned error. -/
def InMemoryFile.Close (f : InMemoryFile) (head : HeadResult)
    (putRes : Option String) : InMemoryFile × Option PutCall × Option GErr :=
  let f1 := { f with atP := 0, closed := true }
  let expected := "\"" ++ md5hex f.data ++ "\""
  match getEtag f.name head with
  | .error e => (f1, none, some e)
  | .ok etag =>
    if etag = expected then
      (f1, none, none)
    else
      (f1, some { key := f.name, body := f.data, contentType := "",
                  acl := getACL f.mode }, putRes.map .remote)

/-- The cursor arithmetic and copy of `InMemoryFile.Read` once the buffer is
populated.  `blen` is `len(b)`, the destination buffer's length.  The slice
`f.data[f.at : f.at+n]` panics (modelled by `none`) unless
`0 ≤ f.at ≤ f.at+n ≤ len(f.data)`. -/
def InMemoryFile.readCore (f : InMemoryFile) (blen : Nat) :
    Option (InMemoryFile × Int × Option GErr) :=
  let L : Int := f.data.length
  let ne : Int × Option GErr :=
    if L - f.atP ≥ (blen : Int) then ((blen : Int), none)
    else (L - f.atP, some .eof)
  let n := ne.1
  if 0 ≤ f.atP ∧ f.atP ≤ f.atP + n ∧ f.atP + n ≤ L then
    some ({ f with atP := f.atP + n }, n, ne.2)
  else none

/-- `InMemoryFile.Read` from file.go: fail if closed; if the buffer is empty
fetch the whole remote object first (`get` is the remote answer, an opaque
error message on failure) and reset the cursor; then serve from the buffer,
signalling `io.EOF` when fewer than `blen` bytes remain. -/
def InMemoryFile.Read (f : InMemoryFile) (blen : Nat)
    (get : Except String (List Nat)) : Option (InMemoryFile × Int × Option GErr) :=
  if f.closed = true then some (f, 0, some .fileClosed)
  else if f.data.length = 0 then
    match get with
    | .error e => some (f, 0, some (.remote e))
    | .ok d => InMemoryFile.readCore { f with data := d, atP := 0 } blen
  else
    InMemoryFile.readCore f blen

/-- `InMemoryFile.Write` from file.go: splice `b` into the buffer at the
cursor.  `tail` is `f.data[n+cur:]` when `n+cur < len(f.data)`; when the
cursor is past the end (`diff > 0`) the new buffer is zero padding followed
by `b` (and `tail`), built from a fresh slice; otherwise it is
`f.data[:cur] ++ b ++ tail`.  The cursor moves to the new length, `len(b)`
is reported written, and no error is ever returned.  Out-of-range slice
indexes (negative cursor) panic, modelled by `none`.  The remote store is
not involved. -/
def InMemoryFile.Write (f : InMemoryFile) (b : List Nat) :
    Option (InMemoryFile × Int × Option GErr) :=
  let n : Int := b.length
  let cur : Int := f.atP
  let L : Int := f.data.length
  let diff : Int := cur - L
  let tailRes : Option (List Nat) :=
    if n + cur < L then
      if 0 ≤ n + cur then some (f.data.drop (n + cur).toNat) else none
    else some []
  match tailRes with
  | none => none
  | some tail =>
    if diff > 0 then
      let newData := List.replicate diff.toNat 0 ++ b ++ tail
      some ({ f with data := newData, atP := (newData.length : Int) }, n, none)
    else
      if 0 ≤ cur then
        let newData := f.data.take cur.toNat ++ b ++ tail
        some ({ f with data := newData, atP := (newData.length : Int) }, n, none)
      else none

/-! ## fs.go: the namespace manager `MemS3Fs`

The Go `map[string]afero.File` is modelled as an association list with
unique keys; map values are `InMemoryFile` records (every value stored by
the code is an `*InMemoryFile`).  The reader/writer lock is irrelevant to
the sequential semantics embedded here. -/

/-- The `MemS3Fs.data` namespace map. -/
abbrev FsMap := List (String × InMemoryFile)

/-- Go map lookup `m.getData()[name]`. -/
def lookupSt : FsMap → String → Option InMemoryFile
  | [], _ => none
  | (k', v) :: rest, k => if k' = k then some v else lookupSt rest k

/-- Go map assignment `m.getData()[name] = f` (replace or append). -/
def insertSt : FsMap → String → InMemoryFile → FsMap
  | [], k, v => [(k, v)]
  | (k', v') :: rest, k, v =>
    if k' = k then (k, v) :: rest else (k', v') :: insertSt rest k v

/-- Go `delete(m.getData(), name)`. -/
def deleteSt (st : FsMap) (k : String) : FsMap :=
  st.filter (fun p => ¬ p.1 = k)

/-- `MemDirMap.Add`: directory maps are keyed by the child's `Name()`. -/
def dirMapAdd (l : List String) (k : String) : List String :=
  if k ∈ l then l else l ++ [k]

/-- The directory node inserted by `Mkdir`: fresh `memDir`, `dir` set, all
other fields left at their zero values (the `perm` argument is not stored). -/
def mkdirNode (name : String) : InMemoryFile :=
  { atP := 0, name := name, data := [], memDir := some [], dir := true,
    closed := false, mode := 0 }

/-- `MemS3Fs.Open` from fs.go: a present node has its cursor reset and its
closed flag cleared (`ff.Open()`) and is returned; an absent name yields
`afero.ErrFileNotFound`. -/
def MemS3Fs.Open (st : FsMap) (name : String) :
    FsMap × Except GErr InMemoryFile :=
  match lookupSt st name with
  | some f =>
    let f1 := f.open
    (insertSt st name f1, .ok f1)
  | none => (st, .error .fileNotFound)

/-- `MemS3Fs.findParent` from fs.go.  The split-off base name is opened (a
side effect on the map when such a key exists), but the opened handle is
dropped: on error the function returns the `nil` handle, and on success it
falls through to the final `return nil`.  Either way the result is `nil`. -/
def MemS3Fs.findParent (st : FsMap) (fname : String) :
    FsMap × Option InMemoryFile :=
  let dirs := (goSplit fname).1
  if dirs.length > 1 then
    let par := (goSplit (goClean dirs)).2
    if par.length > 0 then
      match MemS3Fs.Open st par with
      | (st1, .error _) => (st1, none)
      | (st1, .ok _) => (st1, none)
    else (st, none)
  else (st, none)

/-- The internal calls `Mkdir` and the `registerDirs` loop make into each
other; the mutual recursion in fs.go is bounded here by explicit fuel. -/
inductive FsCall where
  | mkd (name : String)
  | regLoop (f : InMemoryFile) (x : String)

/-- `registerWithParent` from fs.go, parameterised by the `Mkdir` it calls:
look for a parent node; when one is found add the child to its directory
map; when none is found (always, by `findParent`'s shape) call `Mkdir` on
the cleaned parent path, discarding its error.  Returns the parent found. -/
def MemS3Fs.registerWithParent (mk : FsMap → String → FsMap × Option GErr)
    (st : FsMap) (f : InMemoryFile) : FsMap × Option InMemoryFile :=
  match MemS3Fs.findParent st f.name with
  | (st1, some p) =>
    let p1 := { p with memDir := some (dirMapAdd (p.memDir.getD []) f.name) }
    (insertSt st1 p.name p1, some p1)
  | (st1, none) =>
    ((mk st1 (goDir (goClean f.name))).1, none)

/-- The fuelled interpreter for `Mkdir` and the `registerDirs` loop body
(fs.go).  `mkd name`: an existing node with a directory map is accepted
silently, an existing regular file yields `afero.ErrFileExists`, and an
absent name is bound to a fresh directory node which is then registered
upward.  `regLoop f x`: the loop in `registerDirs`; it stops at the root,
breaks when `registerWithParent` finds no parent, and otherwise continues
from the parent's name (the Go loop shadows `f`, so `f` itself is passed
again).  Exhausted fuel leaves the map unchanged; every theorem below
either holds for all fuel or instantiates it generously. -/
def MemS3Fs.run : Nat → FsMap → FsCall → FsMap × Option GErr
  | 0, st, _ => (st, none)
  | fuel + 1, st, .mkd name =>
    match lookupSt st name with
    | some d => if d.memDir ≠ none then (st, none) else (st, some .fileExists)
    | none =>
      let nd := mkdirNode name
      let st1 := insertSt st name nd
      ((MemS3Fs.run fuel st1 (.regLoop nd nd.name)).1, none)
  | fuel + 1, st, .regLoop f x =>
    if x = "/" then (st, none)
    else
      match MemS3Fs.registerWithParent
        (fun s n => MemS3Fs.run fuel s (.mkd n)) st f with
      | (st1, none) => (st1, none)
      | (st1, some pf) => MemS3Fs.run fuel st1 (.regLoop f pf.name)

/-- `MemS3Fs.Mkdir` from fs.go (the `perm` argument is ignored by the code). -/
def MemS3Fs.Mkdir (fuel : Nat) (st : FsMap) (name : String) :
    FsMap × Option GErr :=
  MemS3Fs.run fuel st (.mkd name)

/-- `registerDirs` from fs.go. -/
def MemS3Fs.registerDirs (fuel : Nat) (st : FsMap) (f : InMemoryFile) : FsMap :=
  (MemS3Fs.run fuel st (.regLoop f f.name)).1

/-- `MemS3Fs.Create` from fs.go: bind the name to a fresh `MemFileCreate`
node, register directories upward, and return the node then found at the
name.  The path depth bounds the `Mkdir` recursion, so the fuel chosen here
is never exhausted.  No remote-store call appears anywhere on this path
(neither `Create`, `Mkdir`, `registerDirs`, `findParent` nor `Open` take a
remote oracle or emit a remote operation). -/
def MemS3Fs.Create (st : FsMap) (name : String) :
    FsMap × Option InMemoryFile :=
  let nd := MemFileCreate name
  let st1 := insertSt st name nd
  let st2 := MemS3Fs.registerDirs (name.length + 2) st1 nd
  (st2, lookupSt st2 name)

/-- Remote operations issued by `Remove` and `RemoveAll`. -/
inductive RemoteOp where
  | del (key : String)
  | delMulti (keys : List String)
deriving DecidableEq, Repr

/-- `MemS3Fs.Remove` from fs.go: always issue the remote delete (its error
is discarded); then delete the local node — but only if the map has an
entry under the literal key `"name"`, which is how the code is written.
The function always returns success. -/
def MemS3Fs.Remove (st : FsMap) (name : String) :
    FsMap × List RemoteOp × Option GErr :=
  if (lookupSt st "name").isSome then
    (deleteSt st name, [.del name], none)
  else
    (st, [.del name], none)

/-- One remote listing response (goamz `s3.ListResp`), reduced to the fields
the code reads: the truncation flag, the next marker, and the object keys. -/
structure ListResp where
  isTrunc : Bool
  nextMarker : String
  contents : List String
deriving DecidableEq, Repr

/-- The listing loop of `MemS3Fs.RemoveAll` from fs.go.  The loop condition
reads `items.IsTruncated` of the OUTER `items` value — the `items, err :=`
inside the loop body declares a fresh variable that shadows it, so `outer`
is never reassigned and stays `{IsTruncated: true, NextMarker: ""}`.  `rs`
scripts the successive remote listing responses; a listing error returns
immediately; running past the scripted responses while still looping is the
loop failing to terminate, modelled by `none`. -/
def removeAllListLoop (outer : ListResp) (rs : List (Except String ListResp))
    (acc : List String) : Option (Except String (List String)) :=
  if outer.isTrunc = true then
    match rs with
    | [] => none
    | .error e :: _ => some (.error e)
    | .ok r :: rest => removeAllListLoop outer rest (acc ++ r.contents)
  else some (.ok acc)

/-- `MemS3Fs.RemoveAll` from fs.go: drop every local key that has `path` as
a plain leading substring, then collect remote keys through the listing
loop and delete them in one `DelMulti` batch.  `none` models the listing
loop never terminating. -/
def MemS3Fs.RemoveAll (st : FsMap) (path : String)
    (rs : List (Except String ListResp)) :
    Option (FsMap × List RemoteOp × Option GErr) :=
  let st1 := st.filter (fun p => ¬ strHasPre p.1 path = true)
  match removeAllListLoop { isTrunc := true, nextMarker := "", contents := [] }
      rs [] with
  | none => none
  | some (.error e) => some (st1, [], some (.remote e))
  | some (.ok keys) => some (st1, [.delMulti keys], none)

/-! ## Claim-side definitions

These follow the specification's words, for comparison against the embedded
code. -/

/-- Quote normalization as the specification words it: discard all double
quotes before comparing fingerprints. -/
def stripQuotes (s : String) : String :=
  String.mk (s.data.filter (fun c => ¬ c = '"'))

/-- The access-control translation as the specification words it:
other-write (bit 1), else other-read (bit 2), else group-write (bit 4),
else group-read (bit 5), else private; first match wins. -/
def aclSpec (m : Nat) : ACL :=
  if m.testBit 1 then .PublicReadWrite
  else if m.testBit 2 then .PublicRead
  else if m.testBit 4 then .BucketOwnerFull
  else if m.testBit 5 then .BucketOwnerRead
  else .Private

/-- A scripted listing response that is not an error. -/
def exceptOk : Except String ListResp → Bool
  | .ok _ => true
  | .error _ => false

/-- What one namespace operation may do to an already present node: keep it,
or reset its cursor and closed flag (the `Open` side effect).  Nothing on
the `Create`/`Mkdir` path ever removes a key or changes any other field. -/
def fsPres (st st' : FsMap) : Prop :=
  ∀ k v, lookupSt st k = some v →
    lookupSt st' k = some v ∨ lookupSt st' k = some v.open

/-- The child-map emptiness invariant: every node in the namespace map is a
regular file (no child map) or a directory with an empty child map. -/
def fsEC (st : FsMap) : Prop :=
  ∀ p ∈ st, p.2.memDir = none ∨ p.2.memDir = some []

/-! ## Helper lemmas -/

/-- A single-bit mask test is a `testBit`. -/
theorem and_shift_ne (m k : Nat) : (m &&& (1 <<< k) ≠ 0) ↔ m.testBit k = true := by
  rw [Nat.shiftLeft_eq, one_mul, Nat.and_two_pow]
  cases h : m.testBit k <;> simp [(Nat.two_pow_pos k).ne']

/-- `getACL` in terms of the tested bits. -/
theorem getACL_testBit (m : Nat) :
    getACL m = if m.testBit 1 then .PublicReadWrite
      else if m.testBit 2 then .PublicRead
      else if m.testBit 4 then .BucketOwnerFull
      else if m.testBit 5 then .BucketOwnerRead
      else .Private := by
  unfold getACL
  rw [show oWrite = 1 from rfl, show oRead = 2 from rfl,
    show gWrite = 4 from rfl, show gRead = 5 from rfl]
  simp only [and_shift_ne]

/-! ## The claims -/

/-- C9: for every permission-bits value the translation picks exactly one
level by first-match precedence (other-write → public read-write, else
other-read → public read, else group-write → bucket-owner full, else
group-read → bucket-owner read, else private), and changing only execute
bits (mask 0o111 = 73) never changes the result. -/
theorem C9_acl_translation (m e : Nat) :
    getACL m = aclSpec m ∧ getACL (m ^^^ (e &&& 73)) = getACL m := by
  have hk : ∀ k, (73 : Nat).testBit k = false →
      (m ^^^ (e &&& 73)).testBit k = m.testBit k := by
    intro k h
    simp [Nat.testBit_xor, Nat.testBit_land, h]
  constructor
  · rw [getACL_testBit]; rfl
  · rw [getACL_testBit, getACL_testBit,
      hk 1 (by decide), hk 2 (by decide), hk 4 (by decide), hk 5 (by decide)]

/-- C2: the claim says a NotFound answer to the close-time ETag probe is
swallowed and the buffered write proceeds.  The code instead returns the
NotFound error from `Close` and never issues the `Put`: evaluated at a
fresh two-byte file whose remote object does not exist, `Close` performs no
put and surfaces `fileNotFound`. -/
theorem C2_close_surfaces_notFound :
    InMemoryFile.Close { MemFileCreate "/af3ro_tests/renamefrom" with data := [104, 105] }
      .notFound none
    = ({ MemFileCreate "/af3ro_tests/renamefrom" with data := [104, 105], closed := true },
        none, some .fileNotFound) := by
  rfl

/-- C3: the claim says creating `/a/b/c.txt` on an empty namespace leaves
directory nodes at `/a` and `/a/b`, each appearing exactly once in its
parent's children.  The code does fabricate the directory nodes (and the
root), and the creation path makes no remote call, but `findParent` always
returns nil, so no node is ever added to any parent's child map: every
fabricated directory's `memDir` is empty, and `/a` and `/a/b` appear zero
times, not once, in their parents' children. -/
theorem C3_create_fabricates_unlinked_dirs :
    lookupSt (MemS3Fs.Create [] "/a/b/c.txt").1 "/a" = some (mkdirNode "/a")
    ∧ lookupSt (MemS3Fs.Create [] "/a/b/c.txt").1 "/a/b" = some (mkdirNode "/a/b")
    ∧ lookupSt (MemS3Fs.Create [] "/a/b/c.txt").1 "/" = some (mkdirNode "/")
    ∧ lookupSt (MemS3Fs.Create [] "/a/b/c.txt").1 "/a/b/c.txt"
        = some (MemFileCreate "/a/b/c.txt")
    ∧ (mkdirNode "/").memDir = some [] ∧ (mkdirNode "/a").memDir = some [] := by
  decide

/-- C5: the claim says `Remove` deletes the node present at the given path
from the local map.  The code guards the local deletion with a lookup of
the literal key `"name"` instead of the `name` argument: on a namespace
holding only `/x`, `Remove "/x"` issues the remote delete and reports
success but leaves `/x` in the map. -/
theorem C5_remove_keeps_node :
    MemS3Fs.Remove [("/x", MemFileCreate "/x")] "/x"
      = ([("/x", MemFileCreate "/x")], [RemoteOp.del "/x"], none) := by
  decide

/-- C6: the claim says the remote listing loop of `RemoveAll` terminates
for every response sequence whose final response is not truncated.  The
loop's condition reads the outer `items` value, which the `items, err :=`
inside the loop shadows and never updates, so it stays truncated: for every
error-free scripted response sequence — truncated or not — the loop
consumes all responses and is still running. -/
theorem C6_removeAll_loop_never_finishes (rs : List (Except String ListResp))
    (acc : List String) (h : ∀ r ∈ rs, exceptOk r = true) :
    removeAllListLoop { isTrunc := true, nextMarker := "", contents := [] } rs acc
      = none := by
  induction rs generalizing acc with
  | nil => rfl
  | cons r rest ih =>
    match r with
    | .error e => exact absurd (h _ (List.mem_cons_self _ _)) (by simp [exceptOk])
    | .ok v =>
      rw [removeAllListLoop]
      simp only [if_pos rfl]
      exact ih _ (fun x hx => h x (List.mem_cons_of_mem _ hx))

/-- Witness for C6: a single listing response that is final and not
truncated still leaves the loop running. -/
theorem C6_removeAll_witness :
    (∀ r ∈ ([.ok { isTrunc := false, nextMarker := "", contents := [] }] :
        List (Except String ListResp)), exceptOk r = true)
    ∧ removeAllListLoop { isTrunc := true, nextMarker := "", contents := [] }
        [.ok { isTrunc := false, nextMarker := "", contents := [] }] [] = none :=
  ⟨by decide, C6_removeAll_loop_never_finishes _ _ (by decide)⟩

/-- A replacement count of zero leaves the string unchanged. -/
theorem replaceL_zero (old new : List Char) (fuel : Nat) (s : List Char) :
    replaceL old new fuel s 0 = s := by
  cases fuel <;> simp [replaceL]

/-- `getEtag` passes the raw ETag header through: the quote-stripping call
requests zero replacements. -/
theorem getEtag_found (name etag : String) :
    getEtag name (.found etag) = .ok etag := by
  have h : goReplace etag "\"" "" 0 = etag := by
    unfold goReplace
    rw [replaceL_zero]
  simp [getEtag, headName, h]

/-- C1 counterexample: an entity tag equal to the buffer's MD5 hex but
without the surrounding quotes matches after quote normalization, yet
`Close` still issues the `Put` — the comparison is literal, against the
quote-wrapped fingerprint. -/
theorem C1_counterexample :
    stripQuotes "d41d8cd98f00b204e9800998ecf8427e"
      = stripQuotes ("\"" ++ md5hex (MemFileCreate "/t").data ++ "\"")
    ∧ (InMemoryFile.Close (MemFileCreate "/t")
        (.found "d41d8cd98f00b204e9800998ecf8427e") none).2.1 ≠ none := by
  constructor
  · decide
  · decide

/-- C1 (amended): on close, the quote-wrapped MD5 hex of the full local
buffer is compared literally — no quote normalization occurs, since the
strip call replaces zero occurrences — with the raw entity tag from the
metadata-only probe; the close skips the remote `Put` exactly when the raw
tag equals the quote-wrapped fingerprint, and in that case reports
success. -/
theorem C1_literal_etag_comparison (f : InMemoryFile) (etag : String)
    (p : Option String) :
    ((f.Close (.found etag) p).2.1 = none
      ↔ etag = "\"" ++ md5hex f.data ++ "\"")
    ∧ (etag = "\"" ++ md5hex f.data ++ "\""
      → (f.Close (.found etag) p).2.2 = none) := by
  unfold InMemoryFile.Close
  rw [getEtag_found]
  by_cases he : etag = "\"" ++ md5hex f.data ++ "\"" <;> simp [he]

/-- Witness for C1: with the remote tag exactly the quote-wrapped hex MD5
of the empty buffer, close issues no put and succeeds. -/
theorem C1_witness :
    ("\"d41d8cd98f00b204e9800998ecf8427e\""
      = "\"" ++ md5hex (MemFileCreate "/e").data ++ "\"")
    ∧ (InMemoryFile.Close (MemFileCreate "/e")
        (.found "\"d41d8cd98f00b204e9800998ecf8427e\"") none).2.2 = none :=
  ⟨by decide,
   (C1_literal_etag_comparison (MemFileCreate "/e") _ none).2 (by decide)⟩

/-- `Write` never reports an error (in particular it never checks the
closed flag). -/
theorem write_no_error (f : InMemoryFile) (b : List Nat)
    (r : InMemoryFile × Int × Option GErr) (hr : f.Write b = some r) :
    r.2.2 = none := by
  simp only [InMemoryFile.Write] at hr
  split at hr
  · exact Option.noConfusion hr
  · split at hr
    · injection hr with h
      rw [← h]
    · split at hr
      · injection hr with h
        rw [← h]
      · exact Option.noConfusion hr

/-- C7 counterexample: the claim says every write on a closed handle fails
with the closed-handle error and leaves the buffer unchanged; the code's
`Write` never consults the closed flag — on a closed one-byte file it
reports success and replaces the buffer. -/
theorem C7_counterexample :
    ({ MemFileCreate "/x" with data := [1], closed := true } : InMemoryFile).closed
      = true
    ∧ (InMemoryFile.Write { MemFileCreate "/x" with data := [1], closed := true }
        [2]).map (fun r => (r.1.data, r.2.2)) = some ([2], none) := by
  decide

/-- C7 (amended): after close, every read fails with the closed-handle
error and leaves the handle (hence the buffer) unchanged; writes, however,
are not guarded by the closed flag — they never return an error and splice
into the buffer as usual. -/
theorem C7_closed_reads_fail_writes_pass (f : InMemoryFile) (blen : Nat)
    (get : Except String (List Nat)) (bs : List Nat) (h : f.closed = true) :
    f.Read blen get = some (f, 0, some .fileClosed)
    ∧ ∀ r, f.Write bs = some r → r.2.2 = none := by
  constructor
  · simp [InMemoryFile.Read, h]
  · intro r hr
    exact write_no_error f bs r hr

/-- Witness for C7 at a concrete closed file. -/
theorem C7_witness :
    ({ MemFileCreate "/c" with closed := true } : InMemoryFile).closed = true
    ∧ (InMemoryFile.Read { MemFileCreate "/c" with closed := true } 4 (.ok [])
        = some ({ MemFileCreate "/c" with closed := true }, 0, some .fileClosed)
      ∧ ∀ r, InMemoryFile.Write { MemFileCreate "/c" with closed := true } [1]
          = some r → r.2.2 = none) :=
  ⟨by decide, C7_closed_reads_fail_writes_pass _ 4 (.ok []) [1] (by decide)⟩

/-- C8 counterexample: the claim covers every file state, but with a
non-empty buffer and the cursor seeked past the end a zero-length read does
not return zero bytes — the copy's slice bounds are negative and the read
panics. -/
theorem C8_counterexample :
    InMemoryFile.Read { MemFileCreate "/x" with data := [7], atP := 2 } 0 (.ok [])
      = none := by
  decide

/-- C8 (amended): for every state whose buffer is empty or whose cursor
lies within the buffer (between zero and the length), a read into a
zero-length destination returns zero bytes read and does not signal
end-of-stream — also at an empty or fully-consumed file, on a closed
handle, or when the empty-buffer remote fetch fails; with a non-empty
buffer and the cursor beyond the end, the read panics instead. -/
theorem C8_zero_read (f : InMemoryFile) (get : Except String (List Nat))
    (h : f.data = [] ∨ (0 ≤ f.atP ∧ f.atP ≤ (f.data.length : Int))) :
    ∃ f1 e, f.Read 0 get = some (f1, 0, e) ∧ e ≠ some GErr.eof := by
  have hcore : ∀ g : InMemoryFile, 0 ≤ g.atP → g.atP ≤ (g.data.length : Int) →
      g.readCore 0 = some (g, 0, none) := by
    intro g h1 h2
    simp only [InMemoryFile.readCore]
    have hge : ((g.data.length : Int) - g.atP ≥ ((0 : Nat) : Int)) := by
      simp only [Nat.cast_zero]
      omega
    rw [if_pos hge]
    simp only [Nat.cast_zero, add_zero]
    rw [if_pos ⟨h1, le_refl _, h2⟩]
  by_cases hc : f.closed = true
  · exact ⟨f, some .fileClosed, by simp [InMemoryFile.Read, hc], by simp⟩
  · rw [Bool.not_eq_true] at hc
    by_cases hd : f.data.length = 0
    · cases get with
      | error e =>
        exact ⟨f, some (.remote e), by simp [InMemoryFile.Read, hc, hd], by simp⟩
      | ok d =>
        refine ⟨{ f with data := d, atP := 0 }, none, ?_, by simp⟩
        simp only [InMemoryFile.Read, hc, Bool.false_eq_true, if_false, hd, if_true]
        exact hcore _ (le_refl _) (by simp)
    · rcases h with h0 | ⟨h1, h2⟩
      · exact absurd (by rw [h0]; rfl) hd
      · refine ⟨f, none, ?_, by simp⟩
        simp only [InMemoryFile.Read, hc, Bool.false_eq_true, if_false, hd, if_false]
        exact hcore f h1 h2

/-- Witness for C8: a one-byte file with the cursor at the end of the
buffer (fully consumed). -/
theorem C8_witness :
    (({ MemFileCreate "/w" with data := [3], atP := 1 } : InMemoryFile).data = []
      ∨ (0 ≤ ({ MemFileCreate "/w" with data := [3], atP := 1 } : InMemoryFile).atP
        ∧ ({ MemFileCreate "/w" with data := [3], atP := 1 } : InMemoryFile).atP
          ≤ (({ MemFileCreate "/w" with data := [3], atP := 1 } : InMemoryFile).data.length : Int)))
    ∧ ∃ f1 e, InMemoryFile.Read { MemFileCreate "/w" with data := [3], atP := 1 } 0
        (.ok []) = some (f1, 0, e) ∧ e ≠ some GErr.eof :=
  ⟨by decide, C8_zero_read _ _ (by decide)⟩

/-- C4 counterexample: the claim says a write at a cursor beyond the buffer
length yields the previous content, then zero padding, then the written
bytes.  On a one-byte buffer `[1]` with the cursor at 2, writing `[5]`
yields `[0, 5]` — the previous content is discarded, not preserved. -/
theorem C4_counterexample :
    (InMemoryFile.Write { MemFileCreate "/x" with data := [1], atP := 2 } [5]).map
      (fun r => r.1.data) = some [0, 5]
    ∧ ([0, 5] : List Nat) ≠ [1] ++ [0] ++ [5] := by
  decide

/-- C4 (amended): for every write at a non-negative cursor `c`: if `c` is
within the buffer the written bytes overwrite it starting at `c`,
preserving the bytes before `c` and any tail beyond the written region; if
`c` is beyond the buffer length the resulting buffer is zero padding of
length `c` minus the previous length followed by the written bytes — the
previous content is discarded.  The cursor moves to the end of the result,
the write involves no remote store (it takes no remote oracle), reports
accepting all bytes, and returns no error.  (At a negative cursor the
write panics on the slice bounds instead.) -/
theorem C4_write_splices (f : InMemoryFile) (b : List Nat) (h : 0 ≤ f.atP) :
    ∃ d' : List Nat,
      f.Write b = some ({ f with data := d', atP := (d'.length : Int) },
        (b.length : Int), none)
      ∧ d' = if f.atP ≤ (f.data.length : Int)
          then f.data.take f.atP.toNat ++ b ++ f.data.drop (f.atP.toNat + b.length)
          else List.replicate (f.atP.toNat - f.data.length) 0 ++ b := by
  simp only [InMemoryFile.Write]
  by_cases hcl : f.atP ≤ (f.data.length : Int)
  · by_cases ht : (b.length : Int) + f.atP < (f.data.length : Int)
    · rw [if_pos ht, if_pos (by omega : (0 : Int) ≤ (b.length : Int) + f.atP)]
      dsimp only
      rw [if_neg (by omega : ¬ f.atP - (f.data.length : Int) > 0), if_pos h]
      refine ⟨f.data.take f.atP.toNat ++ b ++
        f.data.drop (((b.length : Int) + f.atP).toNat), rfl, ?_⟩
      rw [if_pos hcl]
      have he : ((b.length : Int) + f.atP).toNat = f.atP.toNat + b.length := by omega
      rw [he]
    · rw [if_neg ht]
      dsimp only
      rw [if_neg (by omega : ¬ f.atP - (f.data.length : Int) > 0), if_pos h]
      refine ⟨f.data.take f.atP.toNat ++ b ++ [], rfl, ?_⟩
      rw [if_pos hcl]
      have he : f.data.drop (f.atP.toNat + b.length) = [] :=
        List.drop_eq_nil_of_le (by omega)
      rw [he]
  · rw [if_neg (by omega : ¬ (b.length : Int) + f.atP < (f.data.length : Int))]
    dsimp only
    rw [if_pos (by omega : f.atP - (f.data.length : Int) > 0)]
    refine ⟨List.replicate (f.atP - (f.data.length : Int)).toNat 0 ++ b ++ [], rfl, ?_⟩
    rw [if_neg hcl]
    have he : (f.atP - (f.data.length : Int)).toNat = f.atP.toNat - f.data.length := by
      omega
    rw [he]
    simp

/-- Witness for C4: overwriting in the middle of `[1, 2, 3]` at cursor 1. -/
theorem C4_witness :
    0 ≤ ({ MemFileCreate "/v" with data := [1, 2, 3], atP := 1 } : InMemoryFile).atP
    ∧ ∃ d' : List Nat,
        InMemoryFile.Write { MemFileCreate "/v" with data := [1, 2, 3], atP := 1 } [9]
          = some ({ ({ MemFileCreate "/v" with data := [1, 2, 3], atP := 1 } : InMemoryFile)
              with data := d', atP := (d'.length : Int) }, ((9 :: []).length : Int), none)
        ∧ d' = if ({ MemFileCreate "/v" with data := [1, 2, 3], atP := 1 } : InMemoryFile).atP
              ≤ (({ MemFileCreate "/v" with data := [1, 2, 3], atP := 1 } : InMemoryFile).data.length : Int)
            then ({ MemFileCreate "/v" with data := [1, 2, 3], atP := 1 } : InMemoryFile).data.take
                ({ MemFileCreate "/v" with data := [1, 2, 3], atP := 1 } : InMemoryFile).atP.toNat
              ++ [9]
              ++ ({ MemFileCreate "/v" with data := [1, 2, 3], atP := 1 } : InMemoryFile).data.drop
                (({ MemFileCreate "/v" with data := [1, 2, 3], atP := 1 } : InMemoryFile).atP.toNat + [9].length)
            else List.replicate
                (({ MemFileCreate "/v" with data := [1, 2, 3], atP := 1 } : InMemoryFile).atP.toNat
                  - ({ MemFileCreate "/v" with data := [1, 2, 3], atP := 1 } : InMemoryFile).data.length) 0
              ++ [9] :=
  ⟨by decide, C4_write_splices { MemFileCreate "/v" with data := [1, 2, 3], atP := 1 } [9]
    (by decide)⟩

/-! ## Map lemmas and invariants for the namespace manager -/

/-- Inserting then looking up the same key. -/
theorem lookup_insert_self (st : FsMap) (k : String) (v : InMemoryFile) :
    lookupSt (insertSt st k v) k = some v := by
  induction st with
  | nil => simp [insertSt, lookupSt]
  | cons p rest ih =>
    by_cases hk : p.1 = k <;> simp [insertSt, lookupSt, hk, ih]

/-- Inserting does not affect other keys. -/
theorem lookup_insert_ne (st : FsMap) (k k' : String) (v : InMemoryFile)
    (h : ¬ k' = k) : lookupSt (insertSt st k v) k' = lookupSt st k' := by
  have hne : ¬ (k = k') := fun hh => h hh.symm
  induction st with
  | nil =>
    simp only [insertSt, lookupSt, if_neg hne]
  | cons p rest ih =>
    obtain ⟨pk, pv⟩ := p
    rw [insertSt]
    by_cases hk : pk = k
    · subst hk
      simp only [if_pos rfl, lookupSt, if_neg hne]
    · rw [if_neg hk, lookupSt, lookupSt]
      by_cases hpk' : pk = k'
      · rw [if_pos hpk', if_pos hpk']
      · rw [if_neg hpk', if_neg hpk', ih]

/-- A successful lookup exhibits a member of the association list. -/
theorem lookup_mem (st : FsMap) (k : String) (v : InMemoryFile)
    (h : lookupSt st k = some v) : (k, v) ∈ st := by
  induction st with
  | nil =>
    rw [lookupSt] at h
    exact Option.noConfusion h
  | cons p rest ih =>
    obtain ⟨pk, pv⟩ := p
    rw [lookupSt] at h
    by_cases hk : pk = k
    · rw [if_pos hk] at h
      injection h with h2
      subst h2
      subst hk
      exact List.mem_cons_self _ _
    · rw [if_neg hk] at h
      exact List.mem_cons_of_mem _ (ih h)

theorem fsPres_refl (st : FsMap) : fsPres st st :=
  fun _ _ h => Or.inl h

theorem open_idem (v : InMemoryFile) : v.open.open = v.open := rfl

theorem fsPres_trans {s1 s2 s3 : FsMap} (h12 : fsPres s1 s2) (h23 : fsPres s2 s3) :
    fsPres s1 s3 := by
  intro k v h
  rcases h12 k v h with h2 | h2
  · exact h23 k v h2
  · rcases h23 k v.open h2 with h3 | h3
    · exact Or.inr h3
    · rw [open_idem] at h3
      exact Or.inr h3

/-- `MemS3Fs.Open` preserves every present node up to the open reset. -/
theorem openFs_pres (st : FsMap) (n : String) :
    fsPres st (MemS3Fs.Open st n).1 := by
  unfold MemS3Fs.Open
  cases hls : lookupSt st n with
  | none => exact fsPres_refl st
  | some f =>
    intro k v h
    by_cases hk : k = n
    · subst hk
      rw [h] at hls
      cases hls
      right
      simp [lookup_insert_self]
    · left
      simp only []
      rw [lookup_insert_ne st n k _ hk]
      exact h

/-- `findParent` always returns a nil parent: on a lookup failure it
returns the nil handle, and on success it falls through to `return nil`. -/
theorem findParent_none (st : FsMap) (p : String) :
    (MemS3Fs.findParent st p).2 = none := by
  simp only [MemS3Fs.findParent]
  split
  · split
    · split <;> rfl
    · rfl
  · rfl

/-- The map effect of `findParent` is at most an `Open` reset. -/
theorem findParent_pres (st : FsMap) (p : String) :
    fsPres st (MemS3Fs.findParent st p).1 := by
  simp only [MemS3Fs.findParent]
  split
  · split
    · have h := openFs_pres st (goSplit (goClean (goSplit p).1)).2
      split
      · rename_i heq
        rw [heq] at h
        exact h
      · rename_i heq
        rw [heq] at h
        exact h
    · exact fsPres_refl st
  · exact fsPres_refl st

/-- Since `findParent` never finds a parent, `registerWithParent` always
takes the `Mkdir` branch. -/
theorem registerWithParent_eq (mk : FsMap → String → FsMap × Option GErr)
    (st : FsMap) (f : InMemoryFile) :
    MemS3Fs.registerWithParent mk st f
      = ((mk (MemS3Fs.findParent st f.name).1 (goDir (goClean f.name))).1, none) := by
  unfold MemS3Fs.registerWithParent
  have h := findParent_none st f.name
  rcases hfp : MemS3Fs.findParent st f.name with ⟨st1, p⟩
  rw [hfp] at h
  cases p with
  | none => rfl
  | some q => exact Option.noConfusion h

/-- Every run of the `Mkdir`/`registerDirs` machinery preserves present
nodes up to the open reset. -/
theorem run_pres (fuel : Nat) : ∀ (st : FsMap) (c : FsCall),
    fsPres st (MemS3Fs.run fuel st c).1 := by
  induction fuel with
  | zero => intro st c; exact fsPres_refl st
  | succ fuel ih =>
    intro st c
    cases c with
    | mkd name =>
      rw [MemS3Fs.run]
      cases hls : lookupSt st name with
      | some d =>
        dsimp only
        by_cases hm : d.memDir ≠ none
        · rw [if_pos hm]
          exact fsPres_refl st
        · rw [if_neg hm]
          exact fsPres_refl st
      | none =>
        dsimp only
        have h1 : fsPres st (insertSt st name (mkdirNode name)) := by
          intro k v h
          left
          rw [lookup_insert_ne st name k _ ?_]
          · exact h
          · intro hk
            rw [hk, hls] at h
            exact Option.noConfusion h
        exact fsPres_trans h1 (ih _ _)
    | regLoop f x =>
      rw [MemS3Fs.run]
      by_cases hx : x = "/"
      · rw [if_pos hx]
        exact fsPres_refl st
      · rw [if_neg hx, registerWithParent_eq]
        exact fsPres_trans (findParent_pres st f.name) (ih _ _)

/-- Insertion preserves the invariant when the new node satisfies it. -/
theorem fsEC_insert (k : String) (v : InMemoryFile)
    (hv : v.memDir = none ∨ v.memDir = some []) :
    ∀ st : FsMap, fsEC st → fsEC (insertSt st k v) := by
  intro st
  induction st with
  | nil =>
    intro _ p hp
    rw [insertSt, List.mem_singleton] at hp
    subst hp
    exact hv
  | cons q rest ih =>
    obtain ⟨qk, qv⟩ := q
    intro hst p hp
    rw [insertSt] at hp
    by_cases hq : qk = k
    · rw [if_pos hq] at hp
      rcases List.mem_cons.mp hp with rfl | hp
      · exact hv
      · exact hst _ (List.mem_cons_of_mem _ hp)
    · rw [if_neg hq] at hp
      rcases List.mem_cons.mp hp with rfl | hp
      · exact hst _ (List.mem_cons_self _ _)
      · exact ih (fun r hr => hst r (List.mem_cons_of_mem _ hr)) _ hp

/-- `MemS3Fs.Open` preserves the child-map emptiness invariant (the open
reset does not touch `memDir`). -/
theorem openFs_EC (st : FsMap) (n : String) (hst : fsEC st) :
    fsEC (MemS3Fs.Open st n).1 := by
  unfold MemS3Fs.Open
  cases hls : lookupSt st n with
  | none => exact hst
  | some f =>
    refine fsEC_insert n f.open ?_ st hst
    have hf := hst _ (lookup_mem st n f hls)
    exact hf

/-- `findParent` preserves the child-map emptiness invariant. -/
theorem findParent_EC (st : FsMap) (p : String) (hst : fsEC st) :
    fsEC (MemS3Fs.findParent st p).1 := by
  simp only [MemS3Fs.findParent]
  split
  · split
    · have h := openFs_EC st (goSplit (goClean (goSplit p).1)).2 hst
      split
      · rename_i heq
        rw [heq] at h
        exact h
      · rename_i heq
        rw [heq] at h
        exact h
    · exact hst
  · exact hst

/-- The `Mkdir`/`registerDirs` machinery preserves the child-map emptiness
invariant: directories are always inserted with an empty child map, and the
child-registration branch is unreachable because `findParent` never finds a
parent. -/
theorem run_EC (fuel : Nat) : ∀ (st : FsMap) (c : FsCall),
    fsEC st → fsEC (MemS3Fs.run fuel st c).1 := by
  induction fuel with
  | zero => intro st c hst; exact hst
  | succ fuel ih =>
    intro st c hst
    cases c with
    | mkd name =>
      rw [MemS3Fs.run]
      cases hls : lookupSt st name with
      | some d =>
        dsimp only
        by_cases hm : d.memDir ≠ none
        · rw [if_pos hm]
          exact hst
        · rw [if_neg hm]
          exact hst
      | none =>
        dsimp only
        exact ih _ _ (fsEC_insert name (mkdirNode name) (Or.inr rfl) st hst)
    | regLoop f x =>
      rw [MemS3Fs.run]
      by_cases hx : x = "/"
      · rw [if_pos hx]
        exact hst
      · rw [if_neg hx, registerWithParent_eq]
        exact ih _ _ (findParent_EC st f.name hst)

/-- C10: `Create` unconditionally installs a fresh empty regular-file node
at the given path, replacing any existing node there, a directory node
included.  Every other key keeps its node up to the cursor/closed reset of
an incidental `Open` — in particular a replaced directory's former children
stay in the namespace map under their own keys — and, given the invariant
that every directory's child map is empty (which all namespace operations
maintain, since `findParent` never links a child to a parent), no directory
node lists them afterwards either. -/
theorem C10_create_replaces (st : FsMap) (name : String) (hEC : fsEC st) :
    lookupSt (MemS3Fs.Create st name).1 name = some (MemFileCreate name)
    ∧ (∀ k v, ¬ k = name → lookupSt st k = some v →
        ∃ v', lookupSt (MemS3Fs.Create st name).1 k = some v'
          ∧ v'.name = v.name ∧ v'.data = v.data ∧ v'.dir = v.dir
          ∧ v'.memDir = v.memDir ∧ v'.mode = v.mode)
    ∧ fsEC (MemS3Fs.Create st name).1 := by
  unfold MemS3Fs.Create MemS3Fs.registerDirs
  refine ⟨?_, ?_, ?_⟩
  · have h1 : lookupSt (insertSt st name (MemFileCreate name)) name
        = some (MemFileCreate name) := lookup_insert_self st name _
    rcases run_pres (name.length + 2) _ (.regLoop (MemFileCreate name)
        (MemFileCreate name).name) name (MemFileCreate name) h1 with h2 | h2
    · exact h2
    · exact h2
  · intro k v hk hv
    have h1 : lookupSt (insertSt st name (MemFileCreate name)) k = some v := by
      rw [lookup_insert_ne st name k _ hk]
      exact hv
    rcases run_pres (name.length + 2) _ (.regLoop (MemFileCreate name)
        (MemFileCreate name).name) k v h1 with h2 | h2
    · exact ⟨v, h2, rfl, rfl, rfl, rfl, rfl⟩
    · exact ⟨v.open, h2, rfl, rfl, rfl, rfl, rfl⟩
  · exact run_EC (name.length + 2) _ _
      (fsEC_insert name (MemFileCreate name) (Or.inl rfl) st hEC)

/-- Witness for C10: replacing the directory `/a` (child `/a/b` on its own
key) by a fresh file. -/
theorem C10_witness :
    fsEC [("/a", mkdirNode "/a"), ("/a/b", MemFileCreate "/a/b")]
    ∧ (lookupSt (MemS3Fs.Create [("/a", mkdirNode "/a"),
          ("/a/b", MemFileCreate "/a/b")] "/a").1 "/a" = some (MemFileCreate "/a")
      ∧ (∀ k v, ¬ k = "/a"
          → lookupSt [("/a", mkdirNode "/a"), ("/a/b", MemFileCreate "/a/b")] k
            = some v
          → ∃ v', lookupSt (MemS3Fs.Create [("/a", mkdirNode "/a"),
              ("/a/b", MemFileCreate "/a/b")] "/a").1 k = some v'
            ∧ v'.name = v.name ∧ v'.data = v.data ∧ v'.dir = v.dir
            ∧ v'.memDir = v.memDir ∧ v'.mode = v.mode)
      ∧ fsEC (MemS3Fs.Create [("/a", mkdirNode "/a"),
          ("/a/b", MemFileCreate "/a/b")] "/a").1) :=
  ⟨by unfold fsEC; decide, C10_create_replaces [("/a", mkdirNode "/a"),
    ("/a/b", MemFileCreate "/a/b")] "/a" (by unfold fsEC; decide)⟩
